import Mathlib

/-!
Verification of the stress-ng cacheline / misaligned / rawsock stressors
(files stress-cacheline.c, stress-misaligned.c, stress-rawsock.c) against
their natural-language specification.  The C code is shallowly embedded:
8-bit machine values are Nat taken modulo 256, shared memory is a function
from byte offsets to byte values, the method registries and their
dispatch loops are explicit recursions, and the signal-driven fault
recovery of the misaligned engine is a state machine over a record of
per-method disabled/exercised flags.
-/

/-! ## Exit codes (values from stress-ng.h) -/

def EXIT_SUCCESS : Nat := 0

def EXIT_FAILURE : Nat := 1

def EXIT_NO_RESOURCE : Nat := 3

/-! ## 8-bit arithmetic helpers -/

/-- A uint8 increment: (*data8)++ on a byte. -/
def inc8 (b : Nat) : Nat := (b + 1) % 256

/-- A uint8 add of 7: val8 += 7 on a byte (stress_cacheline_adjacent, inc). -/
def add7u8 (v : Nat) : Nat := (v + 7) % 256

theorem inc8_eq (b : Nat) : inc8 b = (b + 1) % 256 := rfl

/-- Iterating the uint8 increment k times adds k modulo 256,
provided the start value is a byte. -/
theorem inc8_iterate (b k : Nat) (hb : b < 256) : inc8^[k] b = (b + k) % 256 := by
  induction k with
  | zero => simp [Nat.mod_eq_of_lt hb]
  | succ n ih =>
    rw [Function.iterate_succ_apply', ih, inc8]
    rw [Nat.mod_add_mod, Nat.add_assoc]

/-! ## Cacheline engine: the adjacent method (stress-cacheline.c lines 124-170)

The shared byte *data8 starts at some value; each outer iteration performs
seven single-byte increments (interleaved with reads of the adjacent byte,
which do not change state in a single-process execution), adds 7 to the
register shadow val8, and compares.  1024 outer iterations. -/

/-- One group of the adjacent method: seven uint8 increments of the target
byte (the interleaved reads of data8adjacent have no effect on the byte). -/
def adjacentGroup (d : Nat) : Nat :=
  inc8 (inc8 (inc8 (inc8 (inc8 (inc8 (inc8 d))))))

/-- The loop body of stress_cacheline_adjacent: iters groups remaining,
d the shared byte *data8, v the register shadow val8; returns the exit
status of the method. -/
def stress_cacheline_adjacent : Nat → Nat → Nat → Nat
  | 0, _, _ => EXIT_SUCCESS
  | iters + 1, d, v =>
    let d2 := adjacentGroup d
    let v2 := add7u8 v
    if d2 ≠ v2 then EXIT_FAILURE else stress_cacheline_adjacent iters d2 v2

/-- The whole method: val8 is initialised from *data8, 1024 groups. -/
def stress_cacheline_adjacent_run (start : Nat) : Nat :=
  stress_cacheline_adjacent 1024 start start

/-- The value of the target byte after i groups of the adjacent method. -/
def adjacentData (start i : Nat) : Nat := adjacentGroup^[i] start

/-- The value of the register shadow val8 after i groups. -/
def adjacentVal (start i : Nat) : Nat := add7u8^[i] start

theorem adjacentGroup_eq (d : Nat) : adjacentGroup d = (d + 7) % 256 := by
  unfold adjacentGroup inc8
  omega

theorem adjacentData_eq (start i : Nat) (h : start < 256) :
    adjacentData start i = (start + 7 * i) % 256 := by
  induction i with
  | zero => simp [adjacentData, Nat.mod_eq_of_lt h]
  | succ n ih =>
    unfold adjacentData at ih ⊢
    rw [Function.iterate_succ_apply', ih, adjacentGroup_eq, Nat.mod_add_mod]
    ring_nf

theorem adjacentVal_eq (start i : Nat) (h : start < 256) :
    adjacentVal start i = (start + 7 * i) % 256 := by
  induction i with
  | zero => simp [adjacentVal, Nat.mod_eq_of_lt h]
  | succ n ih =>
    unfold adjacentVal at ih ⊢
    rw [Function.iterate_succ_apply', ih, add7u8, Nat.mod_add_mod]
    ring_nf

/-- The adjacent loop returns success whenever the byte and shadow agree. -/
theorem stress_cacheline_adjacent_success (iters : Nat) :
    ∀ d v : Nat, d = v → stress_cacheline_adjacent iters d v = EXIT_SUCCESS := by
  induction iters with
  | zero => intro d v _; rfl
  | succ n ih =>
    intro d v hdv
    subst hdv
    have hgroups : adjacentGroup d = add7u8 d := by
      rw [adjacentGroup_eq]; rfl
    simp only [stress_cacheline_adjacent, hgroups]
    rw [if_neg (fun hcontra => hcontra rfl)]
    exact ih _ _ rfl

example : stress_cacheline_adjacent_run 0xa5 = EXIT_SUCCESS := by
  have := stress_cacheline_adjacent_success 1024 0xa5 0xa5 rfl
  exact this

/-! ## Cacheline engine: the mix method (stress-cacheline.c lines 33-62, 321-350) -/

/-- 8-bit rotate left, from the ROL8 macro: bit7 is extracted, the value is
shifted left one (dropping to 8 bits), and bit7 is ORed back in as bit 0. -/
def ROL8 (v : Nat) : Nat :=
  let t := v % 256
  let bit7 := (t &&& 0x80) >>> 7
  ((t <<< 1) % 256) ||| bit7

/-- 8-bit rotate right, from the ROR8 macro: bit0 is extracted, the value is
shifted right one, and bit0 is ORed back in as bit 7. -/
def ROR8 (v : Nat) : Nat :=
  let t := v % 256
  let bit0 := (t &&& 1) <<< 7
  (t >>> 1) ||| bit0

/-- The EXERCISE macro: an 8-bit increment, a rotate left, then a rotate
right (the interleaved memory barriers have no sequential effect). -/
def EXERCISE (v : Nat) : Nat := ROR8 (ROL8 ((v + 1) % 256))

set_option maxRecDepth 2048 in
theorem ROR8_ROL8 (v : Nat) (h : v < 256) : ROR8 (ROL8 v) = v := by
  revert h
  revert v
  decide

theorem EXERCISE_eq (v : Nat) : EXERCISE v = (v + 1) % 256 :=
  ROR8_ROL8 ((v + 1) % 256) (Nat.mod_lt _ (by decide))

/-- The loop of stress_cacheline_mix: iters iterations remaining, tmp the
process-local static shadow.  Each iteration stores tmp to the shared byte,
applies EXERCISE to the shared byte, copies tmp into the register val8,
applies EXERCISE to val8, and fails if the two disagree; otherwise tmp
becomes val8.  The shared byte's previous value is overwritten by the store,
so it does not appear as an argument. -/
def stress_cacheline_mix : Nat → Nat → Nat
  | 0, _ => EXIT_SUCCESS
  | iters + 1, tmp =>
    let d := EXERCISE tmp
    let v := EXERCISE tmp
    if v ≠ d then EXIT_FAILURE else stress_cacheline_mix iters v

/-- The whole method: the static tmp starts at 0xa5, 1024 iterations. -/
def stress_cacheline_mix_run : Nat := stress_cacheline_mix 1024 0xa5

theorem stress_cacheline_mix_success (iters : Nat) :
    ∀ tmp : Nat, stress_cacheline_mix iters tmp = EXIT_SUCCESS := by
  induction iters with
  | zero => intro tmp; rfl
  | succ n ih =>
    intro tmp
    simp only [stress_cacheline_mix]
    rw [if_neg (fun hcontra => hcontra rfl)]
    exact ih _

/-! ## Cacheline engine: rdfwd64 and rdrev64 (stress-cacheline.c lines 352-428)

The shared cache line is a function from byte offsets to byte values.  A
64-bit read at offset j assembles eight bytes and changes nothing; the read
loops thread the line state through so that the frame property is a theorem
about the recursion, not a definitional identity. -/

/-- Assemble the eight bytes at offsets j..j+7 into the 64-bit value a
little-endian volatile uint64 load would return.  The C code discards the
value; it is produced here and discarded by the caller. -/
def read64 (line : Nat → Nat) (j : Nat) : Nat :=
  line j + 256 * (line (j + 1) + 256 * (line (j + 2) + 256 * (line (j + 3) +
    256 * (line (j + 4) + 256 * (line (j + 5) + 256 * (line (j + 6) +
    256 * line (j + 7)))))))

/-- Perform the 64-bit reads at the given offsets in order, threading the
line state and collecting the values read (which the C code casts to void). -/
def rdLine64 : List Nat → (Nat → Nat) → ((Nat → Nat) × List Nat)
  | [], line => (line, [])
  | j :: js, line =>
    let v := read64 line j
    let r := rdLine64 js line
    (r.1, v :: r.2)

/-- The offsets visited by: for (j = 0; j < size; j += 8). -/
def strideUp (size : Nat) : Nat → Nat → List Nat
  | 0, _ => []
  | fuel + 1, j => if j < size then j :: strideUp size fuel (j + 8) else []

def fwdOffsets (size : Nat) : List Nat := strideUp size size 0

/-- The offsets visited by: for (j = (ssize_t)size - 8; j >= 0; j -= 8),
computed over the integers as in the C code and mapped back to Nat. -/
def strideDown : Nat → Int → List Nat
  | 0, _ => []
  | fuel + 1, j => if 0 ≤ j then j.toNat :: strideDown fuel (j - 8) else []

def revOffsets (size : Nat) : List Nat := strideDown (size + 1) ((size : Int) - 8)

/-- One batch of stress_cacheline_rdfwd64 / rdrev64 on a line state:
increment the byte at idx, snapshot it into val8, read the whole line at
the given offsets, then compare val8 with the byte.  Returns the new line
state and whether the verification passed. -/
def cacheline_rd64_batch (offs : List Nat) (idx : Nat) (line : Nat → Nat) :
    ((Nat → Nat) × Bool) :=
  let line1 := Function.update line idx (inc8 (line idx))
  let val8 := line1 idx
  let r := rdLine64 offs line1
  (r.1, val8 == r.1 idx)

/-- The 1024-iteration loop of rdfwd64 / rdrev64, returning the final line
state and the exit status. -/
def cacheline_rd64_loop (offs : List Nat) (idx : Nat) :
    Nat → (Nat → Nat) → ((Nat → Nat) × Nat)
  | 0, line => (line, EXIT_SUCCESS)
  | iters + 1, line =>
    let r := cacheline_rd64_batch offs idx line
    if r.2 then cacheline_rd64_loop offs idx iters r.1 else (r.1, EXIT_FAILURE)

/-- stress_cacheline_rdfwd64 on a line of the given size. -/
def stress_cacheline_rdfwd64 (size idx : Nat) (line : Nat → Nat) :
    ((Nat → Nat) × Nat) :=
  cacheline_rd64_loop (fwdOffsets size) idx 1024 line

/-- stress_cacheline_rdrev64 on a line of the given size. -/
def stress_cacheline_rdrev64 (size idx : Nat) (line : Nat → Nat) :
    ((Nat → Nat) × Nat) :=
  cacheline_rd64_loop (revOffsets size) idx 1024 line

/-- The read loop never modifies the line state. -/
theorem rdLine64_fst (offs : List Nat) (line : Nat → Nat) :
    (rdLine64 offs line).1 = line := by
  induction offs with
  | nil => rfl
  | cons j js ih => simp [rdLine64, ih]

/-- One batch leaves the line equal to the original with only the target
byte incremented, and its verification always passes. -/
theorem cacheline_rd64_batch_eq (offs : List Nat) (idx : Nat) (line : Nat → Nat) :
    cacheline_rd64_batch offs idx line =
      (Function.update line idx (inc8 (line idx)), true) := by
  simp [cacheline_rd64_batch, rdLine64_fst]

theorem cacheline_rd64_loop_success (offs : List Nat) (idx : Nat) (iters : Nat) :
    ∀ line : Nat → Nat, (cacheline_rd64_loop offs idx iters line).2 = EXIT_SUCCESS := by
  induction iters with
  | zero => intro line; rfl
  | succ n ih =>
    intro line
    simp only [cacheline_rd64_loop, cacheline_rd64_batch_eq]
    exact ih _

example : fwdOffsets 64 = [0, 8, 16, 24, 32, 40, 48, 56] := by decide
example : revOffsets 64 = [56, 48, 40, 32, 24, 16, 8, 0] := by decide

/-! ## Cacheline engine: the all dispatcher (stress-cacheline.c lines 562-595)

The registry cacheline_methods holds the all entry at index 0 followed by
the individual methods.  The dispatcher runs a for loop from index 1 while
keep_stressing holds, calling each method and returning the first
non-success status.  The sub-methods are abstracted by their return status
res i, and keep_stressing by a predicate on the loop iteration. -/

/-- The body of stress_cacheline_all over the remaining method indices:
at each index the keep_stressing condition is polled; when it holds the
method is invoked and a non-success status returns immediately.  Returns
the exit status and the list of indices actually invoked. -/
def cachelineAllLoop (keep : Nat → Bool) (res : Nat → Nat) :
    List Nat → (Nat × List Nat)
  | [] => (EXIT_SUCCESS, [])
  | i :: is =>
    if keep i then
      let rc := res i
      if rc ≠ EXIT_SUCCESS then (rc, [i])
      else
        let r := cachelineAllLoop keep res is
        (r.1, i :: r.2)
    else (EXIT_SUCCESS, [])

/-- stress_cacheline_all: iterate over indices 1 .. n-1 of a registry of n
entries (index 0 is the all entry itself). -/
def stress_cacheline_all (keep : Nat → Bool) (res : Nat → Nat) (n : Nat) :
    (Nat × List Nat) :=
  cachelineAllLoop keep res (List.range' 1 (n - 1))

/-- When keep_stressing holds and every remaining method succeeds, the loop
invokes all of them in order and returns success. -/
theorem cachelineAllLoop_all_success (keep : Nat → Bool) (res : Nat → Nat)
    (l : List Nat) (hkeep : ∀ t, keep t = true)
    (hres : ∀ i ∈ l, res i = EXIT_SUCCESS) :
    cachelineAllLoop keep res l = (EXIT_SUCCESS, l) := by
  induction l with
  | nil => rfl
  | cons i is ih =>
    have hi := hres i (List.mem_cons_self i is)
    simp only [cachelineAllLoop, hkeep i, if_true, hi]
    rw [if_neg (fun hcontra => hcontra rfl)]
    rw [ih (fun j hj => hres j (List.mem_cons_of_mem i hj))]

/-- When keep_stressing holds, the methods before j succeed and j fails,
the loop stops at j: it returns the failing status and invokes exactly the
prefix up to and including j. -/
theorem cachelineAllLoop_short_circuit (keep : Nat → Bool) (res : Nat → Nat)
    (l1 : List Nat) (j : Nat) (l2 : List Nat) (hkeep : ∀ t, keep t = true)
    (hres : ∀ i ∈ l1, res i = EXIT_SUCCESS) (hj : res j ≠ EXIT_SUCCESS) :
    cachelineAllLoop keep res (l1 ++ j :: l2) = (res j, l1 ++ [j]) := by
  induction l1 with
  | nil =>
    simp only [List.nil_append, cachelineAllLoop, hkeep j, if_true]
    rw [if_pos hj]
  | cons i is ih =>
    have hi := hres i (List.mem_cons_self i is)
    simp only [List.cons_append, cachelineAllLoop, hkeep i, if_true, hi]
    rw [if_neg (fun hcontra => hcontra rfl)]
    simp only [List.append_eq]
    rw [ih (fun k hk => hres k (List.mem_cons_of_mem i hk))]

/-- Whatever keep_stressing and the methods do, the loop returns success
only when every method it invoked returned success. -/
theorem cachelineAllLoop_success_of_invoked (keep : Nat → Bool) (res : Nat → Nat) :
    ∀ l : List Nat, (cachelineAllLoop keep res l).1 = EXIT_SUCCESS →
      ∀ i ∈ (cachelineAllLoop keep res l).2, res i = EXIT_SUCCESS := by
  intro l
  induction l with
  | nil => intro _ i hi; simp [cachelineAllLoop] at hi
  | cons j js ih =>
    intro hsucc i hi
    by_cases hk : keep j = true
    · by_cases hrc : res j = EXIT_SUCCESS
      · simp only [cachelineAllLoop, hk, if_true, hrc] at hsucc hi
        rw [if_neg (fun hcontra => hcontra rfl)] at hsucc hi
        rcases List.mem_cons.mp hi with h | h
        · rw [h]; exact hrc
        · exact ih hsucc i h
      · simp only [cachelineAllLoop, hk, if_true, if_pos hrc] at hsucc
        exact absurd hsucc hrc
    · simp only [cachelineAllLoop, hk, if_false] at hi
      simp at hi

/-- The invoked indices always form a sublist (in order, without
repetition) of the index list the loop was given. -/
theorem cachelineAllLoop_sublist (keep : Nat → Bool) (res : Nat → Nat) :
    ∀ l : List Nat, (cachelineAllLoop keep res l).2.Sublist l := by
  intro l
  induction l with
  | nil => simp [cachelineAllLoop]
  | cons j js ih =>
    by_cases hk : keep j = true
    · by_cases hrc : res j = EXIT_SUCCESS
      · simp only [cachelineAllLoop, hk, if_true, hrc]
        rw [if_neg (fun hcontra => hcontra rfl)]
        exact List.Sublist.cons₂ j ih
      · simp only [cachelineAllLoop, hk, if_true, if_pos hrc]
        simp
    · simp only [cachelineAllLoop, hk, if_false]
      simp

/-! ## Misaligned engine: method table state (stress-misaligned.c lines 49-56, 390-457)

Each registry entry carries a disabled and an exercised flag; index 0 is
the all entry.  The static local variable named exercised inside
stress_misaligned_all persists across calls and is the field allEx here.
The behaviour of a sub-method invocation is abstracted by whether it traps
a fault (SIGBUS/SIGILL/SIGSEGV): on a fault the handler marks
current_method disabled and siglongjmps back to the resume point armed in
stress_misaligned before its dispatch loop. -/

structure MisState where
  disabled : Nat → Bool
  exercised : Nat → Bool
  allEx : Bool

/-- The state at the top of a run, after stress_misaligned_enable_all and
with the dispatcher's static flag still clear (first run of the process). -/
def misInitState : MisState :=
  { disabled := fun _ => false, exercised := fun _ => false, allEx := false }

/-- The state change of a completed sub-method invocation inside
stress_misaligned_all: its exercised flag and the static flag are set. -/
def misSetExercised (st : MisState) (j : Nat) : MisState :=
  { st with exercised := Function.update st.exercised j true, allEx := true }

/-- The state change of the fault handler: current_method (the entry whose
routine was running) is marked disabled. -/
def misSetDisabled (st : MisState) (j : Nat) : MisState :=
  { st with disabled := Function.update st.disabled j true }

/-- The for loop of stress_misaligned_all over the remaining method
indices: disabled entries are skipped; an entry that faults is disabled by
the handler (current_method points at it) and the pass aborts via
siglongjmp; an entry that completes has its exercised flag and the static
flag set.  Returns the state, the index of the faulting method if any, and
the indices whose routines were started. -/
def misAllLoop (faults : Nat → Bool) : List Nat → MisState →
    (MisState × Option Nat × List Nat)
  | [], st => (st, none, [])
  | i :: is, st =>
    if st.disabled i then misAllLoop faults is st
    else if faults i then
      (misSetDisabled st i, some i, [i])
    else
      let r := misAllLoop faults is (misSetExercised st i)
      (r.1, r.2.1, i :: r.2.2)

/-- stress_misaligned_all: run the loop over indices 1 .. m of a table with
m sub-methods; when the pass completes without a fault and the static flag
is still clear, entry 0 (the all entry itself) is marked disabled.  A
faulting pass longjmps out before that check. -/
def stress_misaligned_all (faults : Nat → Bool) (m : Nat) (st : MisState) :
    (MisState × Option Nat × List Nat) :=
  let r := misAllLoop faults (List.range' 1 m) st
  match r.2.1 with
  | some j => (r.1, some j, r.2.2)
  | none =>
    if r.1.allEx then (r.1, none, r.2.2)
    else (misSetDisabled r.1 0, none, r.2.2)

/-- The statement misaligned_method exercised = true after a completed
dispatch of the configured (all) entry in stress_misaligned. -/
def misSetExercisedZero (st : MisState) : MisState :=
  { st with exercised := Function.update st.exercised 0 true }

/-- The dispatch loop of stress_misaligned when the configured method is
the all entry (index 0).  Each round first tests the entry's disabled flag
and exits with EXIT_NO_RESOURCE when set; otherwise it calls the all
dispatcher.  A faulting pass resumes at the top of the loop body without
polling keep_stressing; a completed pass sets the entry's exercised flag,
bumps the bogo counter and polls keep_stressing.  faults p i tells whether
method i traps during pass p; keep p is the keep_stressing poll after pass
p.  Returns the final state, the concatenated invocation trace, and the
exit status (none when the fuel ran out before the loop finished). -/
def misMain (faults : Nat → Nat → Bool) (keep : Nat → Bool) (m : Nat) :
    Nat → Nat → MisState → (MisState × List Nat × Option Nat)
  | 0, _, st => (st, [], none)
  | fuel + 1, p, st =>
    if st.disabled 0 then (st, [], some EXIT_NO_RESOURCE)
    else
      let r := stress_misaligned_all (faults p) m st
      match r.2.1 with
      | some _ =>
        let rest := misMain faults keep m fuel (p + 1) r.1
        (rest.1, r.2.2 ++ rest.2.1, rest.2.2)
      | none =>
        let st3 := misSetExercisedZero r.1
        if keep p then
          let rest := misMain faults keep m fuel (p + 1) st3
          (rest.1, r.2.2 ++ rest.2.1, rest.2.2)
        else (st3, r.2.2, some EXIT_SUCCESS)

/-- stress_misaligned_exercised (lines 463-498): the indices of the
sub-methods reported as exercised at the end of a run. -/
def misExercisedList (st : MisState) (m : Nat) : List Nat :=
  (List.range' 1 m).filter (fun i => st.exercised i)

/-! ## Misaligned engine: loop iteration counts and access offsets
(stress-misaligned.c lines 27, 58-386) -/

def MISALIGN_LOOPS : Nat := 65536

/-- The number of body executions of: i = start; while (--i) body;
mirroring the predecrement-and-test loop head. -/
def whileDec : Nat → Nat
  | 0 => 0
  | i + 1 => if i = 0 then 0 else 1 + whileDec i

theorem whileDec_succ (i : Nat) : whileDec (i + 1) = i := by
  induction i with
  | zero => rfl
  | succ n ih =>
    rw [whileDec, if_neg (Nat.succ_ne_zero n), ih]
    omega

/-- Buffer offsets of the 16-bit views ptr1 .. ptr8. -/
def int16_offsets : List Nat := [1, 3, 5, 7, 9, 11, 13, 15]

/-- Buffer offsets of the 32-bit views ptr1 .. ptr4. -/
def int32_offsets : List Nat := [1, 5, 9, 13]

/-- Buffer offsets of the 64-bit views ptr1 and ptr2. -/
def int64_offsets : List Nat := [1, 9]

/-- Buffer offset of the single 128-bit view ptr1. -/
def int128_offsets : List Nat := [1]

/-! ## Rawsock: readiness barrier and receiver loop (stress-rawsock.c)

The sender's wait loop (lines 136-147) polls keep_stressing, then reads
the lock-protected counter g_shared rawsock.ready, breaking when the
observation equals args num_instances.  The observations are abstracted
by a sequence ready t (the value read under the lock at the t-th poll)
and the keep_stressing polls by keep t. -/

inductive WaitExit where
  | ready (t : Nat) : WaitExit
  | stopped (t : Nat) : WaitExit
deriving DecidableEq

/-- The sender's wait-for-server loop: poll keep_stressing; when it holds,
read the counter under the lock and break out when it equals the instance
total, otherwise sleep and repeat.  Returns how the loop exited, or none
when the fuel ran out while still waiting. -/
def senderWait (keep : Nat → Bool) (ready : Nat → Nat) (num_instances : Nat) :
    Nat → Nat → Option WaitExit
  | 0, _ => none
  | fuel + 1, t =>
    if keep t then
      if ready t = num_instances then some (WaitExit.ready t)
      else senderWait keep ready num_instances fuel (t + 1)
    else some (WaitExit.stopped t)

/-- Whether the sender reaches its first sendto call: the wait loop must
have exited and the send loop's keep_stressing poll (the next poll after
the wait loop's last one) must still hold. -/
def senderSendsFirst (keep : Nat → Bool) (ready : Nat → Nat)
    (num_instances fuel t : Nat) : Bool :=
  match senderWait keep ready num_instances fuel t with
  | some (WaitExit.ready u) => keep (u + 1)
  | some (WaitExit.stopped u) => keep (u + 1)
  | none => false

/-- The receiver's single lock-protected readiness increment
(lines 195-197): g_shared rawsock.ready++ executed exactly once, before
the receive loop. -/
def rawsock_ready_inc (r : Nat) : Nat := r + 1

/-! ## Rawsock: receiver read outcomes (lines 199-227) -/

def EINTR : Nat := 4

inductive RecvOutcome where
  | cleanStop : RecvOutcome
  | intrStop : RecvOutcome
  | failStop : RecvOutcome
  | keepGoing : RecvOutcome
deriving DecidableEq

/-- The receiver's treatment of one recvfrom result n with the given
errno: zero-length is a clean break, a negative result breaks with a
failure diagnostic unless errno is EINTR, anything else continues. -/
def stress_rawsock_recv_step (n : Int) (errno : Nat) : RecvOutcome :=
  if n = 0 then RecvOutcome.cleanStop
  else if n < 0 then
    if errno ≠ EINTR then RecvOutcome.failStop else RecvOutcome.intrStop
  else RecvOutcome.keepGoing

/-- The receiver loop: keep_stressing is polled at the head; reads t gives
the t-th recvfrom result and errno.  The enclosing rc variable is threaded
through unchanged, exactly as in the source, which never assigns it inside
the loop; the Bool records whether the loop stopped with a failure
diagnostic printed. -/
def stress_rawsock_recv_loop (keep : Nat → Bool) (reads : Nat → Int × Nat) :
    Nat → Nat → Nat → (Nat × Bool)
  | 0, _, rc => (rc, false)
  | fuel + 1, t, rc =>
    if keep t then
      match stress_rawsock_recv_step (reads t).1 (reads t).2 with
      | RecvOutcome.cleanStop => (rc, false)
      | RecvOutcome.intrStop => (rc, false)
      | RecvOutcome.failStop => (rc, true)
      | RecvOutcome.keepGoing => stress_rawsock_recv_loop keep reads fuel (t + 1) rc
    else (rc, false)

/-! ## Misaligned engine: preservation lemmas -/

/-- Once an entry is disabled, the dispatch loop keeps it disabled, never
starts its routine, and leaves its exercised flag untouched. -/
theorem misAllLoop_disabled_skip (faults : Nat → Bool) :
    ∀ (l : List Nat) (st : MisState) (i : Nat), st.disabled i = true →
      (misAllLoop faults l st).1.disabled i = true ∧
      i ∉ (misAllLoop faults l st).2.2 ∧
      (misAllLoop faults l st).1.exercised i = st.exercised i := by
  intro l
  induction l with
  | nil => intro st i hi; exact ⟨hi, List.not_mem_nil i, rfl⟩
  | cons j js ih =>
    intro st i hi
    by_cases hj : st.disabled j = true
    · simp only [misAllLoop, hj, if_true]
      exact ih st i hi
    · have hij : i ≠ j := fun h => hj (h ▸ hi)
      simp only [misAllLoop, hj, if_false, Bool.false_eq_true]
      by_cases hf : faults j = true
      · simp only [hf, if_true]
        refine ⟨?_, ?_, rfl⟩
        · simpa [misSetDisabled, Function.update_noteq hij] using hi
        · simp [hij]
      · simp only [hf, if_false, Bool.false_eq_true]
        have hst2 : (misSetExercised st j).disabled i = true := hi
        obtain ⟨h1, h2, h3⟩ := ih (misSetExercised st j) i hst2
        refine ⟨h1, ?_, ?_⟩
        · intro hmem
          rcases List.mem_cons.mp hmem with h | h
          · exact hij h
          · exact h2 h
        · rw [h3]
          exact Function.update_noteq hij _ _

/-- Disabled entries stay disabled, are never started and keep their
exercised flag across one call of the all dispatcher. -/
theorem stress_misaligned_all_disabled_skip (faults : Nat → Bool) (m : Nat)
    (st : MisState) (i : Nat) (hi : st.disabled i = true) :
    (stress_misaligned_all faults m st).1.disabled i = true ∧
    i ∉ (stress_misaligned_all faults m st).2.2 ∧
    (stress_misaligned_all faults m st).1.exercised i = st.exercised i := by
  obtain ⟨h1, h2, h3⟩ := misAllLoop_disabled_skip faults (List.range' 1 m) st i hi
  unfold stress_misaligned_all
  rcases hf : (misAllLoop faults (List.range' 1 m) st).2.1 with _ | j
  · simp only [hf]
    by_cases hEx : (misAllLoop faults (List.range' 1 m) st).1.allEx = true
    · simp only [hEx, if_true]
      exact ⟨h1, h2, h3⟩
    · simp only [hEx, if_false, Bool.false_eq_true]
      refine ⟨?_, h2, h3⟩
      by_cases hi0 : i = 0
      · subst hi0
        simp [misSetDisabled]
      · simpa [misSetDisabled, Function.update_noteq hi0] using h1
  · simp only [hf]
    exact ⟨h1, h2, h3⟩

/-- Disabled entries stay disabled, are never started and keep their
exercised flag across the whole dispatch loop of stress_misaligned. -/
theorem misMain_disabled_skip (faults : Nat → Nat → Bool) (keep : Nat → Bool)
    (m : Nat) :
    ∀ (fuel p : Nat) (st : MisState) (i : Nat), st.disabled i = true →
      (misMain faults keep m fuel p st).1.disabled i = true ∧
      i ∉ (misMain faults keep m fuel p st).2.1 ∧
      (misMain faults keep m fuel p st).1.exercised i = st.exercised i := by
  intro fuel
  induction fuel with
  | zero =>
    intro p st i hi
    refine ⟨hi, ?_, rfl⟩
    simp [misMain]
  | succ n ih =>
    intro p st i hi
    by_cases h0 : st.disabled 0 = true
    · simp only [misMain, h0, if_true]
      simp [hi]
    · obtain ⟨ha1, ha2, ha3⟩ := stress_misaligned_all_disabled_skip (faults p) m st i hi
      have hi0 : i ≠ 0 := fun h => h0 (h ▸ hi)
      simp only [misMain, h0, if_false, Bool.false_eq_true]
      rcases hf : (stress_misaligned_all (faults p) m st).2.1 with _ | j
      · simp only [hf]
        obtain ⟨hb1, hb2, hb3⟩ := ih (p + 1)
          (misSetExercisedZero (stress_misaligned_all (faults p) m st).1) i ha1
        by_cases hk : keep p = true
        · simp only [hk, if_true]
          refine ⟨hb1, ?_, ?_⟩
          · intro hmem
            rcases List.mem_append.mp hmem with h | h
            · exact ha2 h
            · exact hb2 h
          · rw [hb3]
            rw [show (misSetExercisedZero (stress_misaligned_all (faults p) m st).1).exercised i
                = (stress_misaligned_all (faults p) m st).1.exercised i from
              Function.update_noteq hi0 _ _]
            exact ha3
        · simp only [hk, if_false, Bool.false_eq_true]
          refine ⟨ha1, ha2, ?_⟩
          rw [show (misSetExercisedZero (stress_misaligned_all (faults p) m st).1).exercised i
              = (stress_misaligned_all (faults p) m st).1.exercised i from
            Function.update_noteq hi0 _ _]
          exact ha3
      · simp only [hf]
        obtain ⟨hb1, hb2, hb3⟩ := ih (p + 1) (stress_misaligned_all (faults p) m st).1 i ha1
        refine ⟨hb1, ?_, ?_⟩
        · intro hmem
          rcases List.mem_append.mp hmem with h | h
          · exact ha2 h
          · exact hb2 h
        · rw [hb3]
          exact ha3

/-- A pass over entries that are all disabled changes nothing, faults
nowhere and starts nothing. -/
theorem misAllLoop_all_disabled (faults : Nat → Bool) :
    ∀ (l : List Nat) (st : MisState), (∀ i ∈ l, st.disabled i = true) →
      misAllLoop faults l st = (st, none, []) := by
  intro l
  induction l with
  | nil => intro st _; rfl
  | cons j js ih =>
    intro st h
    simp only [misAllLoop, h j (List.mem_cons_self j js), if_true]
    exact ih st (fun i hi => h i (List.mem_cons_of_mem j hi))

/-- A fault-free pass starts exactly the enabled entries, in table order. -/
theorem misAllLoop_no_faults (faults : Nat → Bool) (hf : ∀ i, faults i = false) :
    ∀ (l : List Nat) (st : MisState),
      (misAllLoop faults l st).2.1 = none ∧
      (misAllLoop faults l st).2.2 = l.filter (fun i => !st.disabled i) := by
  intro l
  induction l with
  | nil => intro st; exact ⟨rfl, rfl⟩
  | cons j js ih =>
    intro st
    by_cases hj : st.disabled j = true
    · simp only [misAllLoop, hj, if_true, List.filter_cons, Bool.not_true,
        Bool.false_eq_true, if_false]
      exact ih st
    · simp only [misAllLoop, hj, if_false, hf j, Bool.false_eq_true, List.filter_cons]
      obtain ⟨ih1, ih2⟩ := ih (misSetExercised st j)
      have hdis : ∀ i : Nat, (misSetExercised st j).disabled i = st.disabled i :=
        fun i => rfl
      refine ⟨ih1, ?_⟩
      rw [ih2]
      simp [misSetExercised]

/-- The entries started by a pass form a sublist of the index list. -/
theorem misAllLoop_sublist (faults : Nat → Bool) :
    ∀ (l : List Nat) (st : MisState), (misAllLoop faults l st).2.2.Sublist l := by
  intro l
  induction l with
  | nil => intro st; simp [misAllLoop]
  | cons j js ih =>
    intro st
    by_cases hj : st.disabled j = true
    · simp only [misAllLoop, hj, if_true]
      exact List.Sublist.cons j (ih st)
    · simp only [misAllLoop, hj, if_false, Bool.false_eq_true]
      by_cases hf : faults j = true
      · simp only [hf, if_true]
        simp
      · simp only [hf, if_false, Bool.false_eq_true]
        exact List.Sublist.cons₂ j (ih (misSetExercised st j))

/-! ## Rawsock: wait-loop lemmas -/

/-- A ready exit of the wait loop happens exactly at an observation equal
to the instance total, with keep_stressing still holding. -/
theorem senderWait_ready_eq (keep : Nat → Bool) (ready : Nat → Nat)
    (num_instances : Nat) :
    ∀ (fuel t u : Nat),
      senderWait keep ready num_instances fuel t = some (WaitExit.ready u) →
      ready u = num_instances ∧ keep u = true := by
  intro fuel
  induction fuel with
  | zero => intro t u h; exact absurd h (by simp [senderWait])
  | succ n ih =>
    intro t u h
    by_cases hk : keep t = true
    · by_cases hr : ready t = num_instances
      · simp only [senderWait, hk, if_true, hr, Option.some.injEq] at h
        cases h
        exact ⟨hr, hk⟩
      · simp only [senderWait, hk, if_true, hr, if_false] at h
        exact ih (t + 1) u h
    · simp only [senderWait, hk, Bool.false_eq_true, if_false, Option.some.injEq] at h
      cases h

/-- A stopped exit of the wait loop happens exactly at a failed
keep_stressing poll. -/
theorem senderWait_stopped_eq (keep : Nat → Bool) (ready : Nat → Nat)
    (num_instances : Nat) :
    ∀ (fuel t u : Nat),
      senderWait keep ready num_instances fuel t = some (WaitExit.stopped u) →
      keep u = false := by
  intro fuel
  induction fuel with
  | zero => intro t u h; exact absurd h (by simp [senderWait])
  | succ n ih =>
    intro t u h
    by_cases hk : keep t = true
    · by_cases hr : ready t = num_instances
      · simp only [senderWait, hk, if_true, hr, Option.some.injEq] at h
        cases h
      · simp only [senderWait, hk, if_true, hr, if_false] at h
        exact ih (t + 1) u h
    · simp only [senderWait, hk, Bool.false_eq_true, if_false, Option.some.injEq] at h
      cases h
      exact Bool.not_eq_true _ ▸ (Bool.eq_false_iff.mpr hk)

/-- While every observation falls short of the instance total and
keep_stressing keeps holding, the wait loop never exits. -/
theorem senderWait_spin (keep : Nat → Bool) (ready : Nat → Nat)
    (num_instances : Nat) (hready : ∀ s, ready s ≠ num_instances)
    (hkeep : ∀ s, keep s = true) :
    ∀ (fuel t : Nat), senderWait keep ready num_instances fuel t = none := by
  intro fuel
  induction fuel with
  | zero => intro t; rfl
  | succ n ih =>
    intro t
    simp only [senderWait, hkeep t, if_true, hready t, if_false]
    exact ih (t + 1)

/-- The receiver loop never assigns the enclosing rc variable. -/
theorem stress_rawsock_recv_loop_rc (keep : Nat → Bool) (reads : Nat → Int × Nat) :
    ∀ (fuel t rc : Nat), (stress_rawsock_recv_loop keep reads fuel t rc).1 = rc := by
  intro fuel
  induction fuel with
  | zero => intro t rc; rfl
  | succ n ih =>
    intro t rc
    by_cases hk : keep t = true
    · simp only [stress_rawsock_recv_loop, hk, if_true]
      rcases stress_rawsock_recv_step (reads t).1 (reads t).2 with _ | _ | _ | _
      · rfl
      · rfl
      · rfl
      · exact ih (t + 1) rc
    · simp only [stress_rawsock_recv_loop, hk, Bool.false_eq_true, if_false]

/-- The invocation trace of one all-dispatcher call is the trace of its
inner loop: the end-of-pass bookkeeping starts no routine. -/
theorem stress_misaligned_all_trace (faults : Nat → Bool) (m : Nat) (st : MisState) :
    (stress_misaligned_all faults m st).2.2 =
      (misAllLoop faults (List.range' 1 m) st).2.2 := by
  unfold stress_misaligned_all
  rcases hf : (misAllLoop faults (List.range' 1 m) st).2.1 with _ | j
  · simp only [hf]
    by_cases hEx : (misAllLoop faults (List.range' 1 m) st).1.allEx = true
    · simp [hEx]
    · simp [hEx]
  · simp [hf]

theorem whileDec_65536 : whileDec 65536 = 65535 := by
  have h := whileDec_succ 65535
  norm_num at h
  exact h

/-! ## The claims -/

/-- C1 (amended): once a sub-method entry of the misaligned engine is
disabled, every later pass of the all dispatcher skips it — its routine is
never started again and its exercised flag is never set thereafter — and,
provided it had not completed an invocation before being disabled, the
end-of-run report does not list it as exercised.  (As literally stated the
claim is false: an entry exercised on an earlier pass and disabled later is
still reported as exercised, see the counterexample.) -/
theorem claim_C1 (faults : Nat → Nat → Bool) (keep : Nat → Bool)
    (m fuel p : Nat) (st : MisState) (i : Nat)
    (hdis : st.disabled i = true) (hex : st.exercised i = false) :
    i ∉ (misMain faults keep m fuel p st).2.1 ∧
    (misMain faults keep m fuel p st).1.exercised i = false ∧
    i ∉ misExercisedList (misMain faults keep m fuel p st).1 m := by
  obtain ⟨h1, h2, h3⟩ := misMain_disabled_skip faults keep m fuel p st i hdis
  refine ⟨h2, h3.trans hex, ?_⟩
  intro hmem
  unfold misExercisedList at hmem
  have hpred := (List.mem_filter.mp hmem).2
  rw [h3.trans hex] at hpred
  cases hpred

/-- C1 witness: a state whose entry 1 is disabled and unexercised; the
dispatch loop never starts entry 1 and the report omits it. -/
theorem claim_C1_witness :
    1 ∉ (misMain (fun _ _ => false) (fun _ => false) 2 3 0
      { disabled := fun i => i == 1, exercised := fun _ => false,
        allEx := false }).2.1 ∧
    (misMain (fun _ _ => false) (fun _ => false) 2 3 0
      { disabled := fun i => i == 1, exercised := fun _ => false,
        allEx := false }).1.exercised 1 = false ∧
    1 ∉ misExercisedList (misMain (fun _ _ => false) (fun _ => false) 2 3 0
      { disabled := fun i => i == 1, exercised := fun _ => false,
        allEx := false }).1 2 :=
  claim_C1 (fun _ _ => false) (fun _ => false) 2 3 0
    { disabled := fun i => i == 1, exercised := fun _ => false, allEx := false }
    1 (by decide) rfl

/-- C1 counterexample: with two sub-methods, both complete in pass 0,
method 1 faults in pass 1 and is disabled by the handler, and the run ends
after pass 2.  The final state has method 1 disabled and the end-of-run
report still lists it as exercised, contradicting the claim that a
disabled method is listed as not exercised. -/
theorem claim_C1_counterexample :
    (misMain (fun p i => p == 1 && i == 1) (fun p => p == 0) 2 10 0
      misInitState).1.disabled 1 = true ∧
    (misMain (fun p i => p == 1 && i == 1) (fun p => p == 0) 2 10 0
      misInitState).1.exercised 1 = true ∧
    1 ∈ misExercisedList (misMain (fun p i => p == 1 && i == 1)
      (fun p => p == 0) 2 10 0 misInitState).1 2 ∧
    (misMain (fun p i => p == 1 && i == 1) (fun p => p == 0) 2 10 0
      misInitState).2.2 = some EXIT_SUCCESS := by
  decide

/-- C2: when the keep-running condition holds throughout, the cacheline
all dispatcher invokes every other registry entry in table order exactly
once if they all succeed; it stops at the first non-success entry,
returning that status with no later entry invoked; success is returned
only when every invoked entry succeeded; and a fault-free pass of the
misaligned all dispatcher starts exactly the enabled entries in table
order. -/
theorem claim_C2 (keep : Nat → Bool) (res : Nat → Nat) (n : Nat)
    (hkeep : ∀ t, keep t = true) :
    ((∀ i ∈ List.range' 1 (n - 1), res i = EXIT_SUCCESS) →
      stress_cacheline_all keep res n = (EXIT_SUCCESS, List.range' 1 (n - 1))) ∧
    (∀ (l1 : List Nat) (j : Nat) (l2 : List Nat),
      List.range' 1 (n - 1) = l1 ++ j :: l2 →
      (∀ i ∈ l1, res i = EXIT_SUCCESS) → res j ≠ EXIT_SUCCESS →
      stress_cacheline_all keep res n = (res j, l1 ++ [j])) ∧
    ((stress_cacheline_all keep res n).1 = EXIT_SUCCESS →
      ∀ i ∈ (stress_cacheline_all keep res n).2, res i = EXIT_SUCCESS) ∧
    (∀ (faults : Nat → Bool) (m : Nat) (st : MisState), (∀ i, faults i = false) →
      (stress_misaligned_all faults m st).2.2 =
        (List.range' 1 m).filter (fun i => !st.disabled i)) := by
  refine ⟨?_, ?_, ?_, ?_⟩
  · intro hres
    exact cachelineAllLoop_all_success keep res _ hkeep hres
  · intro l1 j l2 hdecomp hres hj
    unfold stress_cacheline_all
    rw [hdecomp]
    exact cachelineAllLoop_short_circuit keep res l1 j l2 hkeep hres hj
  · exact cachelineAllLoop_success_of_invoked keep res _
  · intro faults m st hf
    rw [stress_misaligned_all_trace]
    exact (misAllLoop_no_faults faults hf (List.range' 1 m) st).2

/-- C2 witness: an 11-entry registry whose methods all succeed is swept in
table order with a success result. -/
theorem claim_C2_witness :
    stress_cacheline_all (fun _ => true) (fun _ => EXIT_SUCCESS) 11 =
      (EXIT_SUCCESS, List.range' 1 10) :=
  (claim_C2 (fun _ => true) (fun _ => EXIT_SUCCESS) 11 (fun _ => rfl)).1
    (fun _ _ => rfl)

/-- C3 (amended): when every sub-method of the misaligned engine is
disabled, the dispatcher's static flag was never set (no sub-method ever
completed) and the all entry is still enabled, then — provided
keep_stressing still holds — the next pass marks the all entry disabled,
starts no routine, and the dispatch loop exits with EXIT_NO_RESOURCE on
its following iteration.  (As literally stated the claim is false: if any
sub-method ever completed, the static flag keeps the all entry enabled
forever, see the counterexample.) -/
theorem claim_C3 (faults : Nat → Nat → Bool) (keep : Nat → Bool)
    (m fuel p : Nat) (st : MisState)
    (hall : ∀ i, 1 ≤ i → i ≤ m → st.disabled i = true)
    (hEx : st.allEx = false) (h0 : st.disabled 0 = false)
    (hkeep : keep p = true) (hfuel : 2 ≤ fuel) :
    (misMain faults keep m fuel p st).1.disabled 0 = true ∧
    (misMain faults keep m fuel p st).2.1 = [] ∧
    (misMain faults keep m fuel p st).2.2 = some EXIT_NO_RESOURCE := by
  obtain ⟨k, rfl⟩ : ∃ k, fuel = k + 2 := ⟨fuel - 2, by omega⟩
  have hmem : ∀ i ∈ List.range' 1 m, st.disabled i = true := by
    intro i hi
    rw [List.mem_range'_1] at hi
    exact hall i hi.1 (by omega)
  have hloop := misAllLoop_all_disabled (faults p) (List.range' 1 m) st hmem
  have hallcall : stress_misaligned_all (faults p) m st =
      (misSetDisabled st 0, none, []) := by
    unfold stress_misaligned_all
    rw [hloop]
    simp [hEx]
  have hst3 : (misSetExercisedZero (misSetDisabled st 0)).disabled 0 = true := by
    simp [misSetExercisedZero, misSetDisabled]
  simp only [misMain, h0, Bool.false_eq_true, if_false, hallcall, hkeep, if_true,
    hst3, List.append_nil, List.nil_append]
  exact ⟨trivial, trivial, trivial⟩

/-- C3 witness: a two-method table with both sub-methods disabled and
nothing ever exercised exits with resource exhaustion on the next round. -/
theorem claim_C3_witness :
    (misMain (fun _ _ => false) (fun _ => true) 2 5 0
      { disabled := fun i => decide (1 ≤ i), exercised := fun _ => false,
        allEx := false }).1.disabled 0 = true ∧
    (misMain (fun _ _ => false) (fun _ => true) 2 5 0
      { disabled := fun i => decide (1 ≤ i), exercised := fun _ => false,
        allEx := false }).2.1 = [] ∧
    (misMain (fun _ _ => false) (fun _ => true) 2 5 0
      { disabled := fun i => decide (1 ≤ i), exercised := fun _ => false,
        allEx := false }).2.2 = some EXIT_NO_RESOURCE :=
  claim_C3 (fun _ _ => false) (fun _ => true) 2 5 0
    { disabled := fun i => decide (1 ≤ i), exercised := fun _ => false,
      allEx := false }
    (fun i h1 _ => by simp [h1]) rfl rfl rfl (by omega)

/-- C3 counterexample: both sub-methods complete in pass 0, method 2
faults in pass 1, method 1 faults in pass 2.  From pass 3 on every
sub-method is disabled by a trapped fault, yet after ten passes with
keep_stressing always true the all entry is still enabled and the loop is
still iterating — it has not exited with EXIT_NO_RESOURCE — because the
static exercised flag was set in pass 0. -/
theorem claim_C3_counterexample :
    (misMain (fun p i => (p == 1 && i == 2) || (p == 2 && i == 1))
      (fun _ => true) 2 10 0 misInitState).1.disabled 1 = true ∧
    (misMain (fun p i => (p == 1 && i == 2) || (p == 2 && i == 1))
      (fun _ => true) 2 10 0 misInitState).1.disabled 2 = true ∧
    (misMain (fun p i => (p == 1 && i == 2) || (p == 2 && i == 1))
      (fun _ => true) 2 10 0 misInitState).1.disabled 0 = false ∧
    (misMain (fun p i => (p == 1 && i == 2) || (p == 2 && i == 1))
      (fun _ => true) 2 10 0 misInitState).2.2 ≠ some EXIT_NO_RESOURCE := by
  decide

/-- C4: for the cacheline adjacent method under single-process execution,
after the i-th group of 7 increments the target byte equals its starting
value plus 7 times i modulo 256, every per-group verification (byte
against the val8 shadow, checked every 7 increments) compares equal, and
the method returns success after all 1024 groups. -/
theorem claim_C4 (start : Nat) (h : start < 256) :
    (∀ i : Nat, adjacentData start i = (start + 7 * i) % 256) ∧
    (∀ i : Nat, adjacentData start i = adjacentVal start i) ∧
    stress_cacheline_adjacent_run start = EXIT_SUCCESS := by
  refine ⟨fun i => adjacentData_eq start i h, fun i => ?_,
    stress_cacheline_adjacent_success 1024 start start rfl⟩
  rw [adjacentData_eq start i h, adjacentVal_eq start i h]

/-- C4 witness: starting from byte value 0xa5 the third group lands on
0xa5 plus 21 and the whole method succeeds. -/
theorem claim_C4_witness :
    adjacentData 0xa5 3 = (0xa5 + 7 * 3) % 256 ∧
    adjacentData 0xa5 3 = adjacentVal 0xa5 3 ∧
    stress_cacheline_adjacent_run 0xa5 = EXIT_SUCCESS :=
  ⟨(claim_C4 0xa5 (by decide)).1 3, (claim_C4 0xa5 (by decide)).2.1 3,
    (claim_C4 0xa5 (by decide)).2.2⟩

/-- C5: rotate-right undoes rotate-left on every byte, hence one
application of the mix method's EXERCISE transform is a plain increment
modulo 256; consequently the shadow and the shared byte agree after every
full transform and the mix method always returns success. -/
theorem claim_C5 (v : Nat) (hv : v < 256) :
    ROR8 (ROL8 v) = v ∧
    (∀ w : Nat, EXERCISE w = (w + 1) % 256) ∧
    (∀ iters tmp : Nat, stress_cacheline_mix iters tmp = EXIT_SUCCESS) ∧
    stress_cacheline_mix_run = EXIT_SUCCESS :=
  ⟨ROR8_ROL8 v hv, EXERCISE_eq,
    fun iters tmp => stress_cacheline_mix_success iters tmp,
    stress_cacheline_mix_success 1024 0xa5⟩

/-- C5 witness: the round trip at byte value 0xa5. -/
theorem claim_C5_witness :
    ROR8 (ROL8 0xa5) = 0xa5 ∧ EXERCISE 0xa5 = (0xa5 + 1) % 256 :=
  ⟨(claim_C5 0xa5 (by decide)).1, (claim_C5 0xa5 (by decide)).2.1 0xa5⟩

/-- C6: the rawsock sender leaves its readiness wait loop through the
ready branch only at an observation equal to the configured instance
total; when keep_stressing never fails once set (it is monotone), the
first sendto is reached only after such an observation; if every
observation falls short while keep_stressing holds, the loop never exits;
and each receiver's lock-protected increment contributes exactly one, so
K receivers starting from zero yield a count of K. -/
theorem claim_C6 (keep : Nat → Bool) (ready : Nat → Nat) (num_instances : Nat) :
    (∀ fuel t u : Nat,
      senderWait keep ready num_instances fuel t = some (WaitExit.ready u) →
      ready u = num_instances ∧ keep u = true) ∧
    (∀ fuel t : Nat, (∀ s, keep (s + 1) = true → keep s = true) →
      senderSendsFirst keep ready num_instances fuel t = true →
      ∃ u, senderWait keep ready num_instances fuel t = some (WaitExit.ready u) ∧
        ready u = num_instances) ∧
    ((∀ s, ready s ≠ num_instances) → (∀ s, keep s = true) →
      ∀ fuel t : Nat, senderWait keep ready num_instances fuel t = none) ∧
    (∀ K : Nat, rawsock_ready_inc^[K] 0 = K) := by
  refine ⟨senderWait_ready_eq keep ready num_instances, ?_, ?_, ?_⟩
  · intro fuel t hmono hsend
    unfold senderSendsFirst at hsend
    rcases hw : senderWait keep ready num_instances fuel t with _ | e
    · rw [hw] at hsend
      cases hsend
    · rcases e with u | u
      · exact ⟨u, rfl, (senderWait_ready_eq keep ready num_instances fuel t u hw).1⟩
      · rw [hw] at hsend
        have hku : keep u = false := senderWait_stopped_eq keep ready num_instances fuel t u hw
        have := hmono u hsend
        rw [hku] at this
        cases this
  · intro hready hkeep fuel t
    exact senderWait_spin keep ready num_instances hready hkeep fuel t
  · intro K
    induction K with
    | zero => rfl
    | succ n ih => rw [Function.iterate_succ_apply', ih, rawsock_ready_inc]

/-- C6 witness: with every observation equal to the total of 3, the wait
loop exits ready at its first poll, having observed the full count. -/
theorem claim_C6_witness : (3 : Nat) = 3 ∧ true = true :=
  (claim_C6 (fun _ => true) (fun _ => 3) 3).1 1 0 0 rfl

/-- C7 (amended): each misalignment method performs MISALIGN_LOOPS minus
one, that is 65535, iterations of its access pattern per call (the while
predecrement loop runs its body one time fewer than the start count), and
every accessed buffer offset is congruent to 1 modulo the natural
alignment of its operand width, across 8/4/2/1 parallel offsets for the
16/32/64/128-bit widths.  (As literally stated the claim is false: the
iteration count is 65535, not 65536, see the counterexample.) -/
theorem claim_C7 :
    whileDec MISALIGN_LOOPS = MISALIGN_LOOPS - 1 ∧
    whileDec MISALIGN_LOOPS = 65535 ∧
    int16_offsets.length = 8 ∧ int32_offsets.length = 4 ∧
    int64_offsets.length = 2 ∧ int128_offsets.length = 1 ∧
    int16_offsets.all (fun o => o % 2 == 1) = true ∧
    int32_offsets.all (fun o => o % 4 == 1) = true ∧
    int64_offsets.all (fun o => o % 8 == 1) = true ∧
    int128_offsets.all (fun o => o % 16 == 1) = true := by
  refine ⟨whileDec_65536, whileDec_65536, ?_, ?_, ?_, ?_, ?_, ?_, ?_, ?_⟩
  all_goals decide

/-- C7 counterexample: the while predecrement loop started at
MISALIGN_LOOPS executes its body 65535 times, not the claimed 65536. -/
theorem claim_C7_counterexample :
    whileDec MISALIGN_LOOPS = 65535 ∧ whileDec MISALIGN_LOOPS ≠ 65536 := by
  refine ⟨whileDec_65536, ?_⟩
  show whileDec 65536 ≠ 65536
  rw [whileDec_65536]
  decide

/-- C8 (amended): the rawsock receiver stops cleanly with no failure
diagnostic on a zero-length read, stops without a diagnostic on a negative
read with errno EINTR, and stops with a failure diagnostic on any other
negative read; the worker's rc variable, however, is never assigned in the
loop, so the exit status remains whatever it was (EXIT_SUCCESS) — the
unrecoverable socket error is reported only through the diagnostic, not
through a non-zero exit code.  (As literally stated the claim is false:
the failure does not surface in the exit status, see the
counterexample.) -/
theorem claim_C8 :
    (∀ errno : Nat, stress_rawsock_recv_step 0 errno = RecvOutcome.cleanStop) ∧
    (∀ n : Int, n < 0 → stress_rawsock_recv_step n EINTR = RecvOutcome.intrStop) ∧
    (∀ (n : Int) (errno : Nat), n < 0 → errno ≠ EINTR →
      stress_rawsock_recv_step n errno = RecvOutcome.failStop) ∧
    (∀ (keep : Nat → Bool) (reads : Nat → Int × Nat) (fuel t rc : Nat),
      (stress_rawsock_recv_loop keep reads fuel t rc).1 = rc) := by
  refine ⟨?_, ?_, ?_, ?_⟩
  · intro errno
    simp [stress_rawsock_recv_step]
  · intro n hn
    unfold stress_rawsock_recv_step
    rw [if_neg (by omega), if_pos hn, if_neg (by simp)]
  · intro n errno hn he
    unfold stress_rawsock_recv_step
    rw [if_neg (by omega), if_pos hn, if_pos he]
  · intro keep reads fuel t rc
    exact stress_rawsock_recv_loop_rc keep reads fuel t rc

/-- C8 witness: a recvfrom result of minus one with errno 111 (connection
refused) is graded as a stop with a failure diagnostic. -/
theorem claim_C8_witness :
    stress_rawsock_recv_step (-1) 111 = RecvOutcome.failStop :=
  claim_C8.2.2.1 (-1) 111 (by decide) (by decide)

/-- C8 counterexample: a receiver whose first read fails with errno 111
prints the failure diagnostic yet leaves the worker exit status at
EXIT_SUCCESS, which is zero, contradicting the claim that the error
surfaces as a non-zero exit code. -/
theorem claim_C8_counterexample :
    stress_rawsock_recv_loop (fun _ => true) (fun _ => (-1, 111)) 5 0 EXIT_SUCCESS
      = (EXIT_SUCCESS, true) ∧ EXIT_SUCCESS = 0 := by
  decide

/-- C9: in the rdfwd64 and rdrev64 methods under single-process execution,
each batch increments the target byte exactly once and the 8-byte-stride
reads over the containing line (forward or backward) modify no memory:
after the reads the target byte equals its incremented value, every other
byte of the line is unchanged, every per-batch verification passes, and
both methods return success. -/
theorem claim_C9 (sz idx : Nat) (line : Nat → Nat) :
    (cacheline_rd64_batch (fwdOffsets sz) idx line).1 idx = inc8 (line idx) ∧
    (∀ b : Nat, b ≠ idx →
      (cacheline_rd64_batch (fwdOffsets sz) idx line).1 b = line b) ∧
    (cacheline_rd64_batch (fwdOffsets sz) idx line).2 = true ∧
    (cacheline_rd64_batch (revOffsets sz) idx line).1 idx = inc8 (line idx) ∧
    (∀ b : Nat, b ≠ idx →
      (cacheline_rd64_batch (revOffsets sz) idx line).1 b = line b) ∧
    (cacheline_rd64_batch (revOffsets sz) idx line).2 = true ∧
    (stress_cacheline_rdfwd64 sz idx line).2 = EXIT_SUCCESS ∧
    (stress_cacheline_rdrev64 sz idx line).2 = EXIT_SUCCESS := by
  have hf := cacheline_rd64_batch_eq (fwdOffsets sz) idx line
  have hr := cacheline_rd64_batch_eq (revOffsets sz) idx line
  refine ⟨?_, ?_, ?_, ?_, ?_, ?_,
    cacheline_rd64_loop_success (fwdOffsets sz) idx 1024 line,
    cacheline_rd64_loop_success (revOffsets sz) idx 1024 line⟩
  · rw [hf]
    exact Function.update_same idx _ line
  · intro b hb
    rw [hf]
    exact Function.update_noteq hb _ line
  · rw [hf]
  · rw [hr]
    exact Function.update_same idx _ line
  · intro b hb
    rw [hr]
    exact Function.update_noteq hb _ line
  · rw [hr]

/-- C9 witness: on a 64-byte line of sevens with target offset 3, one
batch leaves offset 5 untouched, bumps offset 3 to eight, and the full
methods succeed. -/
theorem claim_C9_witness :
    (cacheline_rd64_batch (fwdOffsets 64) 3 (fun _ => 7)).1 3 = inc8 7 ∧
    (cacheline_rd64_batch (fwdOffsets 64) 3 (fun _ => 7)).1 5 = 7 ∧
    (stress_cacheline_rdfwd64 64 3 (fun _ => 7)).2 = EXIT_SUCCESS ∧
    (stress_cacheline_rdrev64 64 3 (fun _ => 7)).2 = EXIT_SUCCESS :=
  ⟨(claim_C9 64 3 (fun _ => 7)).1,
    (claim_C9 64 3 (fun _ => 7)).2.1 5 (by decide),
    (claim_C9 64 3 (fun _ => 7)).2.2.2.2.2.2.1,
    (claim_C9 64 3 (fun _ => 7)).2.2.2.2.2.2.2⟩

/-- C10: neither all dispatcher ever invokes the registry entry at index 0
(itself): the cacheline dispatcher's invocation list is a sublist of the
indices 1 .. n-1 and the misaligned dispatcher's of 1 .. m, so each call
makes at most one pass over the finite table, never contains index 0 and
never repeats an entry. -/
theorem claim_C10 (keep : Nat → Bool) (res : Nat → Nat) (n : Nat)
    (faults : Nat → Bool) (m : Nat) (st : MisState) :
    (stress_cacheline_all keep res n).2.Sublist (List.range' 1 (n - 1)) ∧
    0 ∉ (stress_cacheline_all keep res n).2 ∧
    (stress_cacheline_all keep res n).2.length ≤ n - 1 ∧
    (stress_cacheline_all keep res n).2.Nodup ∧
    (stress_misaligned_all faults m st).2.2.Sublist (List.range' 1 m) ∧
    0 ∉ (stress_misaligned_all faults m st).2.2 ∧
    (stress_misaligned_all faults m st).2.2.length ≤ m ∧
    (stress_misaligned_all faults m st).2.2.Nodup := by
  have hzero : ∀ k : Nat, 0 ∉ List.range' 1 k := by
    intro k hmem
    rw [List.mem_range'_1] at hmem
    omega
  have h1 := cachelineAllLoop_sublist keep res (List.range' 1 (n - 1))
  have h2 : (stress_misaligned_all faults m st).2.2.Sublist (List.range' 1 m) := by
    rw [stress_misaligned_all_trace]
    exact misAllLoop_sublist faults (List.range' 1 m) st
  refine ⟨h1, ?_, ?_, ?_, h2, ?_, ?_, ?_⟩
  · intro hmem
    exact hzero (n - 1) (h1.subset hmem)
  · have := h1.length_le
    rwa [List.length_range'] at this
  · exact h1.nodup (List.nodup_range' 1 (n - 1))
  · intro hmem
    exact hzero m (h2.subset hmem)
  · have := h2.length_le
    rwa [List.length_range'] at this
  · exact h2.nodup (List.nodup_range' 1 m)
